import Mathlib

/-!
Shallow embedding of `client.go` from the gosseract repository.

The Go code is a thin configuration-and-lifecycle layer over the Tesseract
OCR engine accessed through cgo.  The engine itself is opaque: we model it
as an abstract `Engine` record of pure response functions, and we model the
native `TessBaseAPI` handle as an explicit `ApiState` plus an event trace
recording every call crossing the cgo boundary.  The file system seen by
`os.Stat` is modelled as a partial map from paths to file metadata.
-/

namespace Gosseract

/-- Result of a successful `os.Stat`: the only attribute the Go code reads
is `IsDir`. -/
structure FileInfo where
  isDir : Bool
  deriving Repr, DecidableEq

/-- The file system as seen by `os.Stat`: `none` means `os.Stat` returns an
error for that path (the path does not exist). -/
def FileSystem : Type := String → Option FileInfo

/-- Errors returned by the Go code, one constructor per distinct error
construction site in `client.go`.  The constructor `useAfterRelease` does
not correspond to any construction site in the code: it renders the spec's
`UseAfterRelease` error kind so that claims about it are statable. -/
inductive GErr where
  /-- The error returned by `os.Stat` itself (path does not exist),
  propagated verbatim by `SetConfigFile`. -/
  | statError (path : String)
  /-- "the specified config file path seems to be a directory" -/
  | configFileIsDirectory
  /-- "failed to initialize TessBaseAPI with code %d" -/
  | initError (code : Int)
  /-- "failed to set variable with key(%s):value(%s)" -/
  | variableBindError (key value : String)
  /-- Spec-modelled only: the spec's `UseAfterRelease` error kind.  No
  function in the embedding ever produces it, mirroring the Go code. -/
  | useAfterRelease
  deriving Repr, DecidableEq

/-- Model of `os.Stat`, returning file info or the stat error. -/
def osStat (fs : FileSystem) (path : String) : Except GErr FileInfo :=
  match fs path with
  | none => .error (GErr.statError path)
  | some info => .ok info

/-- Internal state of the native `TessBaseAPI` handle, as far as the Go
code can influence it: language/config passed to `Init`, the image path,
the variable store (the native variable table, modelled as a partial map),
and the page segmentation mode. -/
structure ApiState where
  langs : Option String := none
  config : Option String := none
  image : Option String := none
  vars : String → Option String := fun _ => none
  psm : Option Int := none

/-- One call crossing the cgo boundary. -/
inductive Ev where
  | initEv (langs config : Option String)
  | setImageEv (path : String)
  | setVarEv (key value : String)
  | setPSMEv (mode : Int)
  | utf8TextEv
  | hocrTextEv
  | freeEv
  deriving Repr, DecidableEq

/-- A native handle: its state plus the trace of cgo calls made on it. -/
structure Api where
  st : ApiState := {}
  tr : List Ev := []

/-- The opaque engine: pure response functions for each query the Go code
makes.  `initCode` is the status code returned by `C.Init`, `setVarOk` the
boolean returned by `C.SetVariable`, and `utf8Text`/`hocrText` the strings
returned by the extraction queries as a function of the handle state. -/
structure Engine where
  initCode : Option String → Option String → Int
  setVarOk : String → String → Bool
  utf8Text : ApiState → String
  hocrText : ApiState → String

/-- The `Client` struct: the configuration state accumulated by the
builder methods.  (The `api` field is passed separately as an `Api`;
the unused `TessdataPrefix` TODO field is omitted.) -/
structure Client where
  Trim : Bool
  Languages : List String
  ImagePath : String
  Variables : List (String × String)
  PageSegMode : Option Int
  ConfigFilePath : String
  deriving Repr, DecidableEq

/-- Constructor `NewClient`: Go zero values for unmentioned fields, an empty variable
map, and `Trim = true`. -/
def NewClient : Client :=
  { Trim := true
    Languages := []
    ImagePath := ""
    Variables := []
    PageSegMode := none
    ConfigFilePath := "" }

/-- Method `Close`: calls `C.Free` and returns the never-assigned named error
result, i.e. nil.  It does not touch the configuration state and performs
no bookkeeping on the handle beyond the free itself. -/
def Close (a : Api) : Api × Option GErr :=
  ({ a with tr := a.tr ++ [Ev.freeEv] }, none)

/-- Method `SetImage`. -/
def SetImage (c : Client) (imagepath : String) : Client :=
  { c with ImagePath := imagepath }

/-- Method `SetLanguage` (variadic in Go; the slice of arguments here). -/
def SetLanguage (c : Client) (langs : List String) : Client :=
  { c with Languages := langs }

/-- Go map assignment `m[key] = value`: overwrite the entry if the key is
present, otherwise add a new entry. -/
def mapInsert (m : List (String × String)) (key value : String) :
    List (String × String) :=
  if m.any (fun p => p.1 == key) then
    m.map (fun p => if p.1 == key then (key, value) else p)
  else
    m ++ [(key, value)]

/-- Method `SetVariable`: the assignment into the variables map. -/
def SetVariable (c : Client) (key value : String) : Client :=
  { c with Variables := mapInsert c.Variables key value }

/-- Method `SetWhitelist`. -/
def SetWhitelist (c : Client) (whitelist : String) : Client :=
  SetVariable c "tessedit_char_whitelist" whitelist

/-- Method `SetPageSegMode`. -/
def SetPageSegMode (c : Client) (mode : Int) : Client :=
  { c with PageSegMode := some mode }

/-- Method `SetConfigFile`: stat the path; propagate the stat error, reject
directories, otherwise store the path. -/
def SetConfigFile (fs : FileSystem) (c : Client) (fpath : String) :
    Client × Option GErr :=
  match osStat fs fpath with
  | .error e => (c, some e)
  | .ok info =>
    if info.isDir then (c, some GErr.configFileIsDirectory)
    else ({ c with ConfigFilePath := fpath }, none)

/-- Helper `charLangs`: a C string joining the languages with "+", or the null
pointer (`none`) when the list is empty. -/
def charLangs (c : Client) : Option String :=
  if c.Languages.length ≠ 0 then some (String.intercalate "+" c.Languages)
  else none

/-- Helper `charConfig`: the stored config path as a C string if `os.Stat`
succeeds on it now, otherwise the null pointer (`none`). -/
def charConfig (fs : FileSystem) (c : Client) : Option String :=
  match osStat fs c.ConfigFilePath with
  | .ok _ => some c.ConfigFilePath
  | .error _ => none

/-- Method `init`: build the language and config C strings, call `C.Init` with a
nil data path, and surface a non-zero status code as an error. -/
def init (e : Engine) (fs : FileSystem) (c : Client) (a : Api) :
    Api × Option GErr :=
  let langs := charLangs c
  let config := charConfig fs c
  let a1 : Api :=
    { st := { a.st with langs := langs, config := config }
      tr := a.tr ++ [Ev.initEv langs config] }
  let res := e.initCode langs config
  if res ≠ 0 then (a1, some (GErr.initError res)) else (a1, none)

/-- Method `bind`: one `C.SetVariable` call.  The native variable table gains the
binding when the engine accepts it; the boolean result is returned. -/
def bind (e : Engine) (a : Api) (key value : String) : Api × Bool :=
  let ok := e.setVarOk key value
  ({ st := { a.st with
        vars := if ok then
            (fun q => if q = key then some value else a.st.vars q)
          else a.st.vars }
     tr := a.tr ++ [Ev.setVarEv key value] }, ok)

/-- The `for key, value := range c.Variables` loop body of `prepare`:
bind each entry, returning `variableBindError` on the first failure. -/
def bindAll (e : Engine) (a : Api) :
    List (String × String) → Api × Option GErr
  | [] => (a, none)
  | (k, v) :: rest =>
    match bind e a k v with
    | (a1, true) => bindAll e a1 rest
    | (a1, false) => (a1, some (GErr.variableBindError k v))

/-- Method `prepare`: set the image path unconditionally, bind every variable
(fail-fast), then apply the page segmentation mode when one is set. -/
def prepare (e : Engine) (c : Client) (a : Api) : Api × Option GErr :=
  let a1 : Api :=
    { st := { a.st with image := some c.ImagePath }
      tr := a.tr ++ [Ev.setImageEv c.ImagePath] }
  match bindAll e a1 c.Variables with
  | (a2, some err) => (a2, some err)
  | (a2, none) =>
    match c.PageSegMode with
    | some mode =>
      ({ st := { a2.st with psm := some mode }
         tr := a2.tr ++ [Ev.setPSMEv mode] }, none)
    | none => (a2, none)

/-- Model of the call to trim the output: remove all leading and trailing newline
characters. -/
def trimNL (s : String) : String :=
  ⟨((s.data.dropWhile (· == '\n')).reverse.dropWhile (· == '\n')).reverse⟩

/-- Method `Text`: run `init`, then `prepare`, propagating either error; on
success query `C.UTF8Text` and trim newlines when `Trim` is set. -/
def Text (e : Engine) (fs : FileSystem) (c : Client) (a : Api) :
    Api × Except GErr String :=
  match init e fs c a with
  | (a1, some err) => (a1, .error err)
  | (a1, none) =>
    match prepare e c a1 with
    | (a2, some err) => (a2, .error err)
    | (a2, none) =>
      let out := e.utf8Text a2.st
      ({ a2 with tr := a2.tr ++ [Ev.utf8TextEv] },
        .ok (if c.Trim then trimNL out else out))

/-- Method `HTML`: the same two-phase commit, then `C.HOCRText`; never trims. -/
def HTML (e : Engine) (fs : FileSystem) (c : Client) (a : Api) :
    Api × Except GErr String :=
  match init e fs c a with
  | (a1, some err) => (a1, .error err)
  | (a1, none) =>
    match prepare e c a1 with
    | (a2, some err) => (a2, .error err)
    | (a2, none) =>
      ({ a2 with tr := a2.tr ++ [Ev.hocrTextEv] }, .ok (e.hocrText a2.st))

/-- The spec's `ConfigFileError` kind: "parameter-file path missing or is
a directory; raised synchronously by the setter". -/
def GErr.isConfigFileError : GErr → Bool
  | .statError _ => true
  | .configFileIsDirectory => true
  | _ => false

/-! Specification helpers used to characterize the functions above. -/

/-- The cgo events emitted by the variable-binding loop: one `setVarEv`
per attempted binding, stopping after the first rejected one. -/
def varEvsUntil (e : Engine) : List (String × String) → List Ev
  | [] => []
  | (k, v) :: rest =>
    Ev.setVarEv k v :: (if e.setVarOk k v then varEvsUntil e rest else [])

/-- The cgo events emitted for the page segmentation mode. -/
def psmEvs (c : Client) : List Ev :=
  match c.PageSegMode with
  | some mode => [Ev.setPSMEv mode]
  | none => []

/-- Effect of `prepare` on the handle's stored page segmentation mode. -/
def psmUpd (c : Client) (o : Option Int) : Option Int :=
  match c.PageSegMode with
  | some mode => some mode
  | none => o

/-- Effect of a list of accepted variable bindings on the native
variable table, first to last. -/
def updAll (f : String → Option String) :
    List (String × String) → String → Option String
  | [] => f
  | (k, v) :: rest => updAll (fun q => if q = k then some v else f q) rest

/-- The binding (value) assigned to `q` by the last entry of the list
with key `q`, if any. -/
def lastVal (L : List (String × String)) (q : String) : Option String :=
  match L with
  | [] => none
  | (k, v) :: rest =>
    match lastVal rest q with
    | some w => some w
    | none => if q = k then some v else none

/-- The error produced by the variable-binding loop: the
`variableBindError` of the first binding the engine rejects. -/
def firstBindErr (e : Engine) : List (String × String) → Option GErr
  | [] => none
  | (k, v) :: rest =>
    if e.setVarOk k v then firstBindErr e rest
    else some (GErr.variableBindError k v)

/-- The handle state after a successful `init`-then-`prepare` commit
sequence starting from state `st` (on success every binding is accepted,
so the engine does not appear). -/
def commitSt (fs : FileSystem) (c : Client) (st : ApiState) : ApiState :=
  { langs := charLangs c
    config := charConfig fs c
    image := some c.ImagePath
    vars := updAll st.vars c.Variables
    psm := psmUpd c st.psm }

/-- The cgo events of one full successful commit sequence. -/
def commitEvs (fs : FileSystem) (c : Client) : List Ev :=
  Ev.initEv (charLangs c) (charConfig fs c) :: Ev.setImageEv c.ImagePath ::
    (c.Variables.map fun p => Ev.setVarEv p.1 p.2) ++ psmEvs c

/-! Concrete fixtures. -/

/-- A fresh handle, as produced by `NewClient`'s call to `C.Create`. -/
def apiNew : Api := {}

/-- The empty file system: `os.Stat` fails on every path. -/
def fsEmpty : FileSystem := fun _ => none

/-- A file system holding exactly one path. -/
def fsWith (p : String) (i : FileInfo) : FileSystem :=
  fun q => if q = p then some i else none

/-- A file system with a regular file at "cfg". -/
def fsCfgFile : FileSystem := fsWith "cfg" ⟨false⟩

/-- A file system with a directory at "cfg". -/
def fsCfgDir : FileSystem := fsWith "cfg" ⟨true⟩

/-- An engine that accepts everything and recognizes a fixed string with
surrounding newlines. -/
def engOk : Engine :=
  { initCode := fun _ _ => 0
    setVarOk := fun _ _ => true
    utf8Text := fun _ => "\nHello World\n"
    hocrText := fun _ => "<div>Hello</div>" }

/-- An engine that rejects the variable key "bad" and accepts the rest. -/
def engBad : Engine :=
  { initCode := fun _ _ => 0
    setVarOk := fun k _ => !(k == "bad")
    utf8Text := fun _ => "text"
    hocrText := fun _ => "markup" }

/-- An engine whose `Init` fails with status code 1. -/
def engInitFail : Engine :=
  { initCode := fun _ _ => 1
    setVarOk := fun _ _ => true
    utf8Text := fun _ => "text"
    hocrText := fun _ => "markup" }

/-- A client with one accepted and one rejected variable binding (for
`engBad`). -/
def cBad : Client := { NewClient with Variables := [("ok", "1"), ("bad", "2")] }

/-- A client with one pre-existing variable binding. -/
def cOne : Client := { NewClient with Variables := [("a", "x")] }

/-- A client whose config file path was stored while "cfg" was a regular
file. -/
def cCfg : Client := { NewClient with ConfigFilePath := "cfg" }

/-! Characterization lemmas for `init`. -/

theorem init_fst (e : Engine) (fs : FileSystem) (c : Client) (a : Api) :
    (init e fs c a).1 =
      { st := { a.st with langs := charLangs c, config := charConfig fs c }
        tr := a.tr ++ [Ev.initEv (charLangs c) (charConfig fs c)] } := by
  unfold init; dsimp only; split <;> rfl

theorem init_snd (e : Engine) (fs : FileSystem) (c : Client) (a : Api) :
    (init e fs c a).2 =
      if e.initCode (charLangs c) (charConfig fs c) ≠ 0 then
        some (GErr.initError (e.initCode (charLangs c) (charConfig fs c)))
      else none := by
  unfold init; dsimp only; split <;> simp_all

/-! Characterization lemmas for `bindAll`. -/

theorem bindAll_snd (e : Engine) :
    ∀ (L : List (String × String)) (a : Api),
      (bindAll e a L).2 = firstBindErr e L
  | [], _ => rfl
  | (k, v) :: rest, a => by
    cases h : e.setVarOk k v with
    | true => simp [bindAll, bind, firstBindErr, h, bindAll_snd e rest]
    | false => simp [bindAll, bind, firstBindErr, h]

theorem bindAll_fst_tr (e : Engine) :
    ∀ (L : List (String × String)) (a : Api),
      (bindAll e a L).1.tr = a.tr ++ varEvsUntil e L
  | [], _ => by simp [bindAll, varEvsUntil]
  | (k, v) :: rest, a => by
    cases h : e.setVarOk k v with
    | true =>
      simp [bindAll, bind, varEvsUntil, h, bindAll_fst_tr e rest]
    | false => simp [bindAll, bind, varEvsUntil, h]

theorem bindAll_fst_st_ok (e : Engine) :
    ∀ (L : List (String × String)) (a : Api),
      firstBindErr e L = none →
      (bindAll e a L).1.st = { a.st with vars := updAll a.st.vars L }
  | [], a, _ => by simp [bindAll, updAll]
  | (k, v) :: rest, a, h => by
    cases hk : e.setVarOk k v with
    | true =>
      have hrest : firstBindErr e rest = none := by
        simpa [firstBindErr, hk] using h
      simp [bindAll, bind, hk, updAll, bindAll_fst_st_ok e rest _ hrest]
    | false => simp [firstBindErr, hk] at h

theorem varEvsUntil_ok (e : Engine) :
    ∀ (L : List (String × String)), firstBindErr e L = none →
      varEvsUntil e L = L.map fun p => Ev.setVarEv p.1 p.2
  | [], _ => rfl
  | (k, v) :: rest, h => by
    cases hk : e.setVarOk k v with
    | true =>
      have hrest : firstBindErr e rest = none := by
        simpa [firstBindErr, hk] using h
      simp [varEvsUntil, hk, varEvsUntil_ok e rest hrest]
    | false => simp [firstBindErr, hk] at h

/-! Characterization lemmas for `prepare`. -/

theorem prepare_snd (e : Engine) (c : Client) (a : Api) :
    (prepare e c a).2 = firstBindErr e c.Variables := by
  unfold prepare
  dsimp only
  rcases hb : bindAll e
      { st := { a.st with image := some c.ImagePath }
        tr := a.tr ++ [Ev.setImageEv c.ImagePath] } c.Variables with ⟨a2, r⟩
  have hr : r = firstBindErr e c.Variables := by
    have hh := bindAll_snd e c.Variables
      { st := { a.st with image := some c.ImagePath }
        tr := a.tr ++ [Ev.setImageEv c.ImagePath] }
    rw [hb] at hh; exact hh
  cases r with
  | some err => exact hr
  | none => cases hp : c.PageSegMode <;> simpa [hp] using hr

theorem prepare_fst_st_ok (e : Engine) (c : Client) (a : Api)
    (h : firstBindErr e c.Variables = none) :
    (prepare e c a).1.st =
      { a.st with
          image := some c.ImagePath
          vars := updAll a.st.vars c.Variables
          psm := psmUpd c a.st.psm } := by
  unfold prepare
  dsimp only
  rcases hb : bindAll e
      { st := { a.st with image := some c.ImagePath }
        tr := a.tr ++ [Ev.setImageEv c.ImagePath] } c.Variables with ⟨a2, r⟩
  have hr : r = firstBindErr e c.Variables := by
    have hh := bindAll_snd e c.Variables
      { st := { a.st with image := some c.ImagePath }
        tr := a.tr ++ [Ev.setImageEv c.ImagePath] }
    rw [hb] at hh; exact hh
  have hst := bindAll_fst_st_ok e c.Variables
    { st := { a.st with image := some c.ImagePath }
      tr := a.tr ++ [Ev.setImageEv c.ImagePath] } h
  rw [hb] at hst
  rw [h] at hr
  subst hr
  cases hp : c.PageSegMode <;> simp_all [psmUpd]

theorem prepare_fst_tr_ok (e : Engine) (c : Client) (a : Api)
    (h : firstBindErr e c.Variables = none) :
    (prepare e c a).1.tr =
      a.tr ++ Ev.setImageEv c.ImagePath ::
        ((c.Variables.map fun p => Ev.setVarEv p.1 p.2) ++ psmEvs c) := by
  unfold prepare
  dsimp only
  rcases hb : bindAll e
      { st := { a.st with image := some c.ImagePath }
        tr := a.tr ++ [Ev.setImageEv c.ImagePath] } c.Variables with ⟨a2, r⟩
  have hr : r = firstBindErr e c.Variables := by
    have hh := bindAll_snd e c.Variables
      { st := { a.st with image := some c.ImagePath }
        tr := a.tr ++ [Ev.setImageEv c.ImagePath] }
    rw [hb] at hh; exact hh
  have htr := bindAll_fst_tr e c.Variables
    { st := { a.st with image := some c.ImagePath }
      tr := a.tr ++ [Ev.setImageEv c.ImagePath] }
  rw [hb] at htr
  rw [h] at hr
  subst hr
  cases hp : c.PageSegMode <;>
    simp_all [psmEvs, varEvsUntil_ok e c.Variables h]

theorem prepare_fst_tr_err (e : Engine) (c : Client) (a : Api) (err : GErr)
    (h : firstBindErr e c.Variables = some err) :
    (prepare e c a).1.tr =
      a.tr ++ Ev.setImageEv c.ImagePath :: varEvsUntil e c.Variables := by
  unfold prepare
  dsimp only
  rcases hb : bindAll e
      { st := { a.st with image := some c.ImagePath }
        tr := a.tr ++ [Ev.setImageEv c.ImagePath] } c.Variables with ⟨a2, r⟩
  have hr : r = firstBindErr e c.Variables := by
    have hh := bindAll_snd e c.Variables
      { st := { a.st with image := some c.ImagePath }
        tr := a.tr ++ [Ev.setImageEv c.ImagePath] }
    rw [hb] at hh; exact hh
  have htr := bindAll_fst_tr e c.Variables
    { st := { a.st with image := some c.ImagePath }
      tr := a.tr ++ [Ev.setImageEv c.ImagePath] }
  rw [hb] at htr
  rw [h] at hr
  subst hr
  simpa using htr

/-! Characterization lemmas for `Text` and `HTML`. -/

theorem Text_match_init (e : Engine) (fs : FileSystem) (c : Client) (a : Api)
    (err : GErr) (h : (init e fs c a).2 = some err) :
    Text e fs c a = ((init e fs c a).1, Except.error err) := by
  unfold Text
  rcases hi : init e fs c a with ⟨a1, r⟩
  rw [hi] at h
  simp only at h
  subst h
  rfl

theorem HTML_match_init (e : Engine) (fs : FileSystem) (c : Client) (a : Api)
    (err : GErr) (h : (init e fs c a).2 = some err) :
    HTML e fs c a = ((init e fs c a).1, Except.error err) := by
  unfold HTML
  rcases hi : init e fs c a with ⟨a1, r⟩
  rw [hi] at h
  simp only at h
  subst h
  rfl

theorem Text_match_prep (e : Engine) (fs : FileSystem) (c : Client) (a : Api)
    (err : GErr) (h0 : (init e fs c a).2 = none)
    (h : (prepare e c (init e fs c a).1).2 = some err) :
    Text e fs c a = ((prepare e c (init e fs c a).1).1, Except.error err) := by
  unfold Text
  rcases hi : init e fs c a with ⟨a1, r⟩
  rw [hi] at h0 h
  simp only at h0 h
  subst h0
  dsimp only
  rcases hp : prepare e c a1 with ⟨a2, r2⟩
  rw [hp] at h
  simp only at h
  subst h
  rfl

theorem HTML_match_prep (e : Engine) (fs : FileSystem) (c : Client) (a : Api)
    (err : GErr) (h0 : (init e fs c a).2 = none)
    (h : (prepare e c (init e fs c a).1).2 = some err) :
    HTML e fs c a = ((prepare e c (init e fs c a).1).1, Except.error err) := by
  unfold HTML
  rcases hi : init e fs c a with ⟨a1, r⟩
  rw [hi] at h0 h
  simp only at h0 h
  subst h0
  dsimp only
  rcases hp : prepare e c a1 with ⟨a2, r2⟩
  rw [hp] at h
  simp only at h
  subst h
  rfl

theorem Text_match_ok (e : Engine) (fs : FileSystem) (c : Client) (a : Api)
    (h0 : (init e fs c a).2 = none)
    (h : (prepare e c (init e fs c a).1).2 = none) :
    Text e fs c a =
      ({ prepare e c (init e fs c a).1 |>.1 with
          tr := (prepare e c (init e fs c a).1).1.tr ++ [Ev.utf8TextEv] },
        Except.ok
          (if c.Trim then trimNL (e.utf8Text (prepare e c (init e fs c a).1).1.st)
           else e.utf8Text (prepare e c (init e fs c a).1).1.st)) := by
  unfold Text
  rcases hi : init e fs c a with ⟨a1, r⟩
  rw [hi] at h0 h
  simp only at h0 h
  subst h0
  dsimp only
  rcases hp : prepare e c a1 with ⟨a2, r2⟩
  rw [hp] at h
  simp only at h
  subst h
  rfl

theorem HTML_match_ok (e : Engine) (fs : FileSystem) (c : Client) (a : Api)
    (h0 : (init e fs c a).2 = none)
    (h : (prepare e c (init e fs c a).1).2 = none) :
    HTML e fs c a =
      ({ prepare e c (init e fs c a).1 |>.1 with
          tr := (prepare e c (init e fs c a).1).1.tr ++ [Ev.hocrTextEv] },
        Except.ok (e.hocrText (prepare e c (init e fs c a).1).1.st)) := by
  unfold HTML
  rcases hi : init e fs c a with ⟨a1, r⟩
  rw [hi] at h0 h
  simp only at h0 h
  subst h0
  dsimp only
  rcases hp : prepare e c a1 with ⟨a2, r2⟩
  rw [hp] at h
  simp only at h
  subst h
  rfl

theorem prep_init_st (e : Engine) (fs : FileSystem) (c : Client) (a : Api)
    (h1 : firstBindErr e c.Variables = none) :
    (prepare e c (init e fs c a).1).1.st = commitSt fs c a.st := by
  rw [prepare_fst_st_ok e c _ h1, init_fst]
  rfl

theorem prep_init_tr (e : Engine) (fs : FileSystem) (c : Client) (a : Api)
    (h1 : firstBindErr e c.Variables = none) :
    (prepare e c (init e fs c a).1).1.tr = a.tr ++ commitEvs fs c := by
  rw [prepare_fst_tr_ok e c _ h1, init_fst]
  simp [commitEvs, List.append_assoc]

/-- Full characterization of the result of `Text`: the first `init` or
`prepare` error if any, otherwise the (possibly trimmed) recognized text.
Note the result depends on the incoming handle only through `a.st`. -/
theorem Text_snd (e : Engine) (fs : FileSystem) (c : Client) (a : Api) :
    (Text e fs c a).2 =
      (if e.initCode (charLangs c) (charConfig fs c) ≠ 0 then
        Except.error (GErr.initError (e.initCode (charLangs c) (charConfig fs c)))
      else
        match firstBindErr e c.Variables with
        | some err => Except.error err
        | none =>
          Except.ok
            (if c.Trim then trimNL (e.utf8Text (commitSt fs c a.st))
             else e.utf8Text (commitSt fs c a.st))) := by
  by_cases h0 : e.initCode (charLangs c) (charConfig fs c) ≠ 0
  · have hi : (init e fs c a).2 =
        some (GErr.initError (e.initCode (charLangs c) (charConfig fs c))) := by
      rw [init_snd]; simp [h0]
    rw [Text_match_init e fs c a _ hi]; simp [h0]
  · have hi : (init e fs c a).2 = none := by rw [init_snd]; simp [h0]
    cases h1 : firstBindErr e c.Variables with
    | some err =>
      have hp : (prepare e c (init e fs c a).1).2 = some err := by
        rw [prepare_snd, h1]
      rw [Text_match_prep e fs c a err hi hp]; simp [h0]
    | none =>
      have hp : (prepare e c (init e fs c a).1).2 = none := by
        rw [prepare_snd, h1]
      rw [Text_match_ok e fs c a hi hp]
      simp only [h0, if_false, prep_init_st e fs c a h1]

/-- Full characterization of the result of `HTML`. -/
theorem HTML_snd (e : Engine) (fs : FileSystem) (c : Client) (a : Api) :
    (HTML e fs c a).2 =
      (if e.initCode (charLangs c) (charConfig fs c) ≠ 0 then
        Except.error (GErr.initError (e.initCode (charLangs c) (charConfig fs c)))
      else
        match firstBindErr e c.Variables with
        | some err => Except.error err
        | none => Except.ok (e.hocrText (commitSt fs c a.st))) := by
  by_cases h0 : e.initCode (charLangs c) (charConfig fs c) ≠ 0
  · have hi : (init e fs c a).2 =
        some (GErr.initError (e.initCode (charLangs c) (charConfig fs c))) := by
      rw [init_snd]; simp [h0]
    rw [HTML_match_init e fs c a _ hi]; simp [h0]
  · have hi : (init e fs c a).2 = none := by rw [init_snd]; simp [h0]
    cases h1 : firstBindErr e c.Variables with
    | some err =>
      have hp : (prepare e c (init e fs c a).1).2 = some err := by
        rw [prepare_snd, h1]
      rw [HTML_match_prep e fs c a err hi hp]; simp [h0]
    | none =>
      have hp : (prepare e c (init e fs c a).1).2 = none := by
        rw [prepare_snd, h1]
      rw [HTML_match_ok e fs c a hi hp]
      simp only [h0, if_false, prep_init_st e fs c a h1]

theorem Text_fst_ok (e : Engine) (fs : FileSystem) (c : Client) (a : Api)
    (h0 : e.initCode (charLangs c) (charConfig fs c) = 0)
    (h1 : firstBindErr e c.Variables = none) :
    (Text e fs c a).1 =
      { st := commitSt fs c a.st
        tr := a.tr ++ commitEvs fs c ++ [Ev.utf8TextEv] } := by
  have hi : (init e fs c a).2 = none := by rw [init_snd]; simp [h0]
  have hp : (prepare e c (init e fs c a).1).2 = none := by
    rw [prepare_snd, h1]
  rw [Text_match_ok e fs c a hi hp]
  simp only [Api.mk.injEq]
  refine ⟨prep_init_st e fs c a h1, ?_⟩
  rw [prep_init_tr e fs c a h1, List.append_assoc]

/-! Idempotence of the commit sequence's effect on the handle state. -/

theorem updAll_apply :
    ∀ (L : List (String × String)) (f : String → Option String) (q : String),
      updAll f L q =
        (match lastVal L q with
         | some w => some w
         | none => f q)
  | [], _, _ => rfl
  | (k, v) :: rest, f, q => by
    have ih := updAll_apply rest (fun q' => if q' = k then some v else f q') q
    simp only [updAll, lastVal]
    rw [ih]
    cases h : lastVal rest q with
    | some w => rfl
    | none => by_cases hq : q = k <;> simp [hq]

theorem updAll_idem (L : List (String × String)) (f : String → Option String) :
    updAll (updAll f L) L = updAll f L := by
  funext q
  rw [updAll_apply]
  cases h : lastVal L q with
  | some w => rw [updAll_apply, h]
  | none => rfl

theorem psmUpd_idem (c : Client) (o : Option Int) :
    psmUpd c (psmUpd c o) = psmUpd c o := by
  cases hp : c.PageSegMode <;> simp [psmUpd, hp]

theorem commitSt_idem (fs : FileSystem) (c : Client) (st : ApiState) :
    commitSt fs c (commitSt fs c st) = commitSt fs c st := by
  simp only [commitSt, updAll_idem, psmUpd_idem]

/-! Properties of newline trimming. -/

theorem head?_dropWhile_false {α : Type} (p : α → Bool) :
    ∀ (l : List α) (x : α), (l.dropWhile p).head? = some x → p x = false
  | [], x, h => by simp [List.dropWhile] at h
  | a :: l, x, h => by
    rw [List.dropWhile_cons] at h
    by_cases hpa : p a = true
    · rw [if_pos hpa] at h
      exact head?_dropWhile_false p l x h
    · rw [if_neg hpa] at h
      simp only [List.head?_cons, Option.some.injEq] at h
      subst h
      simpa using hpa

theorem takeWhile_nl_eq_replicate (l : List Char) :
    l.takeWhile (· == '\n') =
      List.replicate (l.takeWhile (· == '\n')).length '\n' := by
  rw [List.eq_replicate_iff]
  refine ⟨rfl, ?_⟩
  intro b hb
  have hmem := List.mem_takeWhile_imp hb
  simpa using hmem

/-- Trimming removes a (maximal) run of newlines from each end and nothing
else: the original splits as newlines ++ result ++ newlines, and the
result neither starts nor ends with a newline. -/
theorem trimNL_spec (s : String) :
    (∃ n m, s.data =
      List.replicate n '\n' ++ (trimNL s).data ++ List.replicate m '\n') ∧
    (trimNL s).data.head? ≠ some '\n' ∧
    (trimNL s).data.getLast? ≠ some '\n' := by
  have hdata : (trimNL s).data =
      ((s.data.dropWhile (· == '\n')).reverse.dropWhile (· == '\n')).reverse :=
    rfl
  have d1 : s.data =
      s.data.takeWhile (· == '\n') ++ s.data.dropWhile (· == '\n') :=
    (List.takeWhile_append_dropWhile (· == '\n') s.data).symm
  have d2 : (s.data.dropWhile (· == '\n')).reverse =
      (s.data.dropWhile (· == '\n')).reverse.takeWhile (· == '\n') ++
        (s.data.dropWhile (· == '\n')).reverse.dropWhile (· == '\n') :=
    (List.takeWhile_append_dropWhile (· == '\n')
      (s.data.dropWhile (· == '\n')).reverse).symm
  have d3 : s.data.dropWhile (· == '\n') =
      (trimNL s).data ++
        ((s.data.dropWhile (· == '\n')).reverse.takeWhile (· == '\n')).reverse := by
    have h := congrArg List.reverse d2
    rw [List.reverse_reverse, List.reverse_append] at h
    rw [hdata]
    exact h
  refine ⟨?_, ?_, ?_⟩
  · refine ⟨(s.data.takeWhile (· == '\n')).length,
      ((s.data.dropWhile (· == '\n')).reverse.takeWhile (· == '\n')).length, ?_⟩
    calc s.data
        = s.data.takeWhile (· == '\n') ++ s.data.dropWhile (· == '\n') := d1
      _ = s.data.takeWhile (· == '\n') ++
            ((trimNL s).data ++
              ((s.data.dropWhile (· == '\n')).reverse.takeWhile
                (· == '\n')).reverse) := by rw [← d3]
      _ = List.replicate (s.data.takeWhile (· == '\n')).length '\n' ++
            ((trimNL s).data ++
              ((s.data.dropWhile (· == '\n')).reverse.takeWhile
                (· == '\n')).reverse) := by rw [← takeWhile_nl_eq_replicate]
      _ = List.replicate (s.data.takeWhile (· == '\n')).length '\n' ++
            (trimNL s).data ++
            List.replicate
              ((s.data.dropWhile (· == '\n')).reverse.takeWhile
                (· == '\n')).length '\n' := by
            rw [takeWhile_nl_eq_replicate (s.data.dropWhile (· == '\n')).reverse,
              List.reverse_replicate, List.append_assoc]
            simp [List.length_replicate]
  · intro hcontra
    cases hrev : (trimNL s).data with
    | nil => rw [hrev] at hcontra; simp at hcontra
    | cons y t =>
      rw [hrev] at hcontra
      simp only [List.head?_cons, Option.some.injEq] at hcontra
      subst hcontra
      have hl1head : (s.data.dropWhile (· == '\n')).head? = some '\n' := by
        rw [d3, hrev]
        simp
      have hfalse := head?_dropWhile_false (· == '\n') s.data '\n' hl1head
      simp at hfalse
  · intro hcontra
    rw [hdata, List.getLast?_reverse] at hcontra
    have hfalse := head?_dropWhile_false (· == '\n')
      (s.data.dropWhile (· == '\n')).reverse '\n' hcontra
    simp at hfalse

/-! Go-map properties of `mapInsert`. -/

theorem lookup_cons_self {β : Type} (k : String) (v : β) (l : List (String × β)) :
    List.lookup k ((k, v) :: l) = some v := by
  simp [List.lookup_cons]

theorem lookup_cons_ne {β : Type} (k k1 : String) (v : β) (l : List (String × β))
    (h : k ≠ k1) : List.lookup k ((k1, v) :: l) = List.lookup k l := by
  have hb : (k == k1) = false := by simpa using h
  simp [List.lookup_cons, hb]

theorem lookup_map_replace_self (k v : String) :
    ∀ m : List (String × String), m.any (fun p => p.1 == k) = true →
      List.lookup k (m.map fun p => if p.1 == k then (k, v) else p) = some v
  | [], h => by simp at h
  | (k1, v1) :: rest, h => by
    simp only [List.map_cons]
    by_cases hk : k1 = k
    · rw [if_pos (by simpa using hk)]
      exact lookup_cons_self k v _
    · rw [if_neg (by simpa using hk)]
      rw [lookup_cons_ne k k1 v1 _ (Ne.symm hk)]
      have h' : rest.any (fun p => p.1 == k) = true := by
        have hb : (k1 == k) = false := by simpa using hk
        have hh : ((k1 == k) || rest.any fun p => p.1 == k) = true := by
          simpa using h
        rw [hb] at hh
        simpa using hh
      exact lookup_map_replace_self k v rest h'

theorem lookup_map_replace_ne (k v k' : String) (hne : k' ≠ k) :
    ∀ m : List (String × String),
      List.lookup k' (m.map fun p => if p.1 == k then (k, v) else p) =
        List.lookup k' m
  | [] => rfl
  | (k1, v1) :: rest => by
    simp only [List.map_cons]
    by_cases hk : k1 = k
    · rw [if_pos (by simpa using hk)]
      rw [lookup_cons_ne k' k v _ hne, lookup_cons_ne k' k1 v1 _ (hk ▸ hne)]
      exact lookup_map_replace_ne k v k' hne rest
    · rw [if_neg (by simpa using hk)]
      by_cases h2 : k' = k1
      · subst h2
        rw [lookup_cons_self, lookup_cons_self]
      · rw [lookup_cons_ne k' k1 v1 _ h2, lookup_cons_ne k' k1 v1 _ h2]
        exact lookup_map_replace_ne k v k' hne rest

theorem lookup_append_single_self (k v : String) :
    ∀ m : List (String × String), m.any (fun p => p.1 == k) = false →
      List.lookup k (m ++ [(k, v)]) = some v
  | [], _ => lookup_cons_self k v []
  | (k1, v1) :: rest, h => by
    have hh : ((k1 == k) || rest.any (fun p => p.1 == k)) = false := by
      simpa using h
    rw [Bool.or_eq_false_iff] at hh
    have hne : k ≠ k1 := by
      intro hcontra
      subst hcontra
      simp at hh
    rw [List.cons_append, lookup_cons_ne k k1 v1 _ hne]
    exact lookup_append_single_self k v rest hh.2

theorem lookup_append_single_ne (k v k' : String) (hne : k' ≠ k) :
    ∀ m : List (String × String),
      List.lookup k' (m ++ [(k, v)]) = List.lookup k' m
  | [] => by
    simp only [List.nil_append]
    rw [lookup_cons_ne k' k v [] hne]
  | (k1, v1) :: rest => by
    by_cases h2 : k' = k1
    · subst h2
      rw [List.cons_append, lookup_cons_self, lookup_cons_self]
    · rw [List.cons_append, lookup_cons_ne k' k1 v1 _ h2,
        lookup_cons_ne k' k1 v1 _ h2]
      exact lookup_append_single_ne k v k' hne rest

theorem map_replace_keys (k v : String) (m : List (String × String)) :
    (m.map fun p => if p.1 == k then (k, v) else p).map Prod.fst =
      m.map Prod.fst := by
  rw [List.map_map]
  apply List.map_congr_left
  intro p _
  by_cases hk : p.1 = k
  · simp only [Function.comp_apply]
    rw [if_pos (by simpa using hk)]
    exact hk.symm
  · simp only [Function.comp_apply]
    rw [if_neg (by simpa using hk)]

theorem countP_map_replace (k v : String) (m : List (String × String)) :
    (m.map fun p => if p.1 == k then (k, v) else p).countP
        (fun p => p.1 == k) =
      m.countP (fun p => p.1 == k) := by
  rw [List.countP_map]
  apply List.countP_congr
  intro x _
  simp only [Function.comp_apply]
  by_cases hk : x.1 = k
  · rw [if_pos (by simpa using hk)]
    simp [hk]
  · rw [if_neg (by simpa using hk)]

theorem countP_le_one_of_nodup_keys (k : String) (m : List (String × String))
    (hnd : (m.map Prod.fst).Nodup) :
    m.countP (fun p => p.1 == k) ≤ 1 := by
  have h1 : m.countP (fun p => p.1 == k) =
      (m.map Prod.fst).countP (fun x => x == k) := by
    rw [List.countP_map]
    rfl
  rw [h1, ← List.count_eq_countP]
  exact List.nodup_iff_count_le_one.mp hnd k

theorem mapInsert_lookup_self (m : List (String × String)) (k v : String) :
    List.lookup k (mapInsert m k v) = some v := by
  unfold mapInsert
  cases h : m.any (fun p => p.1 == k) with
  | true =>
    rw [if_pos rfl]
    exact lookup_map_replace_self k v m h
  | false =>
    rw [if_neg (by simp)]
    exact lookup_append_single_self k v m h

theorem mapInsert_lookup_ne (m : List (String × String)) (k v k' : String)
    (hne : k' ≠ k) :
    List.lookup k' (mapInsert m k v) = List.lookup k' m := by
  unfold mapInsert
  cases h : m.any (fun p => p.1 == k) with
  | true =>
    rw [if_pos rfl]
    exact lookup_map_replace_ne k v k' hne m
  | false =>
    rw [if_neg (by simp)]
    exact lookup_append_single_ne k v k' hne m

theorem mapInsert_countP (m : List (String × String)) (k v : String)
    (hnd : (m.map Prod.fst).Nodup) :
    (mapInsert m k v).countP (fun p => p.1 == k) = 1 := by
  unfold mapInsert
  cases h : m.any (fun p => p.1 == k) with
  | true =>
    rw [if_pos rfl, countP_map_replace]
    have hle := countP_le_one_of_nodup_keys k m hnd
    have hpos := List.countP_pos_iff.mpr (List.any_eq_true.mp h)
    omega
  | false =>
    rw [if_neg (by simp), List.countP_append]
    have h0 : m.countP (fun p => p.1 == k) = 0 := by
      rw [List.countP_eq_zero]
      intro p hp hpk
      have : m.any (fun p => p.1 == k) = true :=
        List.any_eq_true.mpr ⟨p, hp, hpk⟩
      rw [h] at this
      exact absurd this (by simp)
    simp [h0, List.countP_cons]

theorem mapInsert_keys_nodup (m : List (String × String)) (k v : String)
    (hnd : (m.map Prod.fst).Nodup) :
    ((mapInsert m k v).map Prod.fst).Nodup := by
  unfold mapInsert
  cases h : m.any (fun p => p.1 == k) with
  | true =>
    rw [if_pos rfl, map_replace_keys]
    exact hnd
  | false =>
    rw [if_neg (by simp), List.map_append]
    have hk : k ∉ m.map Prod.fst := by
      intro hmem
      obtain ⟨p, hp, hfst⟩ := List.mem_map.mp hmem
      have : m.any (fun p => p.1 == k) = true :=
        List.any_eq_true.mpr ⟨p, hp, by simp [hfst]⟩
      rw [h] at this
      exact absurd this (by simp)
    rw [List.nodup_append]
    refine ⟨hnd, by simp, ?_⟩
    intro x hx hx2
    simp only [List.map_cons, List.map_nil, List.mem_singleton] at hx2
    subst hx2
    exact hk hx

/-! The first rejected binding. -/

theorem firstBindErr_some (e : Engine) :
    ∀ (L : List (String × String)) (err : GErr),
      firstBindErr e L = some err →
      ∃ pre k v post,
        L = pre ++ (k, v) :: post ∧
        (∀ p ∈ pre, e.setVarOk p.1 p.2 = true) ∧
        e.setVarOk k v = false ∧
        err = GErr.variableBindError k v
  | [], err, h => by simp [firstBindErr] at h
  | (k, v) :: rest, err, h => by
    by_cases hk : e.setVarOk k v = true
    · have h' : firstBindErr e rest = some err := by
        simpa [firstBindErr, hk] using h
      obtain ⟨pre, k', v', post, hL, hpre, hko, herr⟩ :=
        firstBindErr_some e rest err h'
      refine ⟨(k, v) :: pre, k', v', post, by simp [hL], ?_, hko, herr⟩
      intro p hp
      rcases List.mem_cons.mp hp with h1 | h1
      · rw [h1]
        exact hk
      · exact hpre p h1
    · have hk' : e.setVarOk k v = false := by simpa using hk
      have herr : err = GErr.variableBindError k v := by
        have := h
        simp only [firstBindErr, hk', Bool.false_eq_true, if_false,
          Option.some.injEq] at this
        exact this.symm
      exact ⟨[], k, v, rest, by simp, by simp, hk', herr⟩

theorem varEvsUntil_mem (e : Engine) :
    ∀ (L : List (String × String)) (ev : Ev), ev ∈ varEvsUntil e L →
      ∃ k v, ev = Ev.setVarEv k v
  | [], ev, h => by simp [varEvsUntil] at h
  | (k, v) :: rest, ev, h => by
    simp only [varEvsUntil] at h
    rcases List.mem_cons.mp h with h1 | h1
    · exact ⟨k, v, h1⟩
    · by_cases hk : e.setVarOk k v = true
      · rw [if_pos hk] at h1
        exact varEvsUntil_mem e rest ev h1
      · rw [if_neg hk] at h1
        simp at h1

/-! The claims. -/

/-- C10: `Close` always returns a nil error: for every handle in any
state, the error value returned by `Close` is `none`, so a caller can
never observe a release failure through its result. -/
theorem Close_returns_nil (a : Api) : (Close a).2 = none := rfl

/-- C3: `init` builds the language identifier passed to the engine by
joining the language list in order with a single "+" delimiter (for
example ["eng", "fra"] yields "eng+fra"); when the list is empty, no
language identifier is passed at all (`none`, so the engine default
applies).  The identifier is both stored in the handle state and recorded
verbatim in the `C.Init` call event. -/
theorem init_language_identifier (e : Engine) (fs : FileSystem) (c : Client)
    (a : Api) :
    (init e fs c a).1.st.langs =
      (if c.Languages = [] then none
       else some (String.intercalate "+" c.Languages)) ∧
    (init e fs c a).1.tr =
      a.tr ++ [Ev.initEv
        (if c.Languages = [] then none
         else some (String.intercalate "+" c.Languages))
        (charConfig fs c)] ∧
    String.intercalate "+" ["eng", "fra"] = "eng+fra" := by
  have hch : charLangs c =
      (if c.Languages = [] then none
       else some (String.intercalate "+" c.Languages)) := by
    unfold charLangs
    by_cases h : c.Languages = []
    · simp [h]
    · have hlen : c.Languages.length ≠ 0 := by
        simpa [List.length_eq_zero] using h
      simp [h, hlen]
  refine ⟨?_, ?_, by decide⟩
  · rw [init_fst]
    exact hch
  · rw [init_fst]
    show a.tr ++ [Ev.initEv (charLangs c) (charConfig fs c)] = _
    rw [hch]

/-- C4: `SetConfigFile` fails both when the path does not exist (the
`os.Stat` error) and when it is a directory; both failures are within the
spec's `ConfigFileError` kind, and in either case the stored
`ConfigFilePath` is left unchanged.  On success the given path is
stored. -/
theorem SetConfigFile_cases (fs : FileSystem) (c : Client) (fpath : String) :
    (fs fpath = none →
      SetConfigFile fs c fpath = (c, some (GErr.statError fpath)) ∧
      GErr.isConfigFileError (GErr.statError fpath) = true) ∧
    (∀ info : FileInfo, fs fpath = some info → info.isDir = true →
      SetConfigFile fs c fpath = (c, some GErr.configFileIsDirectory) ∧
      GErr.isConfigFileError GErr.configFileIsDirectory = true) ∧
    (∀ info : FileInfo, fs fpath = some info → info.isDir = false →
      SetConfigFile fs c fpath = ({ c with ConfigFilePath := fpath }, none)) := by
  refine ⟨?_, ?_, ?_⟩
  · intro h
    exact ⟨by simp [SetConfigFile, osStat, h], rfl⟩
  · intro info h hdir
    exact ⟨by simp [SetConfigFile, osStat, h, hdir], rfl⟩
  · intro info h hdir
    simp [SetConfigFile, osStat, h, hdir]

/-- Witness for C4 at concrete file systems: a missing path, a directory
and a regular file. -/
theorem SetConfigFile_cases_witness :
    SetConfigFile fsEmpty NewClient "cfg" =
      (NewClient, some (GErr.statError "cfg")) ∧
    SetConfigFile fsCfgDir NewClient "cfg" =
      (NewClient, some GErr.configFileIsDirectory) ∧
    SetConfigFile fsCfgFile NewClient "cfg" =
      ({ NewClient with ConfigFilePath := "cfg" }, none) :=
  ⟨((SetConfigFile_cases fsEmpty NewClient "cfg").1 rfl).1,
    ((SetConfigFile_cases fsCfgDir NewClient "cfg").2.1 ⟨true⟩
      (by decide) rfl).1,
    (SetConfigFile_cases fsCfgFile NewClient "cfg").2.2 ⟨false⟩
      (by decide) rfl⟩

/-- C5: `init` re-checks the stored config path immediately before use;
if the path does not exist at that moment, it silently passes no config
file to the engine (`none` both in the handle state and in the `C.Init`
event) and returns an error only for a non-zero engine status code, never
on account of the missing file. -/
theorem init_missing_config_silent (e : Engine) (fs : FileSystem)
    (c : Client) (a : Api) (h : fs c.ConfigFilePath = none) :
    (init e fs c a).1.st.config = none ∧
    (init e fs c a).1.tr = a.tr ++ [Ev.initEv (charLangs c) none] ∧
    ((init e fs c a).2 = none ↔ e.initCode (charLangs c) none = 0) := by
  have hcfg : charConfig fs c = none := by
    unfold charConfig osStat
    rw [h]
  refine ⟨?_, ?_, ?_⟩
  · rw [init_fst]
    exact hcfg
  · rw [init_fst]
    show a.tr ++ [Ev.initEv (charLangs c) (charConfig fs c)] = _
    rw [hcfg]
  · rw [init_snd, hcfg]
    by_cases hc : e.initCode (charLangs c) none = 0
    · simp [hc]
    · simp [hc]

/-- Witness for C5: a stored path missing from the file system is
silently dropped and `init` succeeds. -/
theorem init_missing_config_silent_witness :
    fsEmpty NewClient.ConfigFilePath = none ∧
    (init engOk fsEmpty NewClient apiNew).1.st.config = none ∧
    (init engOk fsEmpty NewClient apiNew).2 = none := by
  have h := init_missing_config_silent engOk fsEmpty NewClient apiNew rfl
  exact ⟨rfl, h.1, h.2.2.mpr rfl⟩

/-- C6: with `Trim = true`, `Text` strips only leading and trailing
newline characters from the engine's raw output and nothing else: the raw
output splits as newlines ++ result ++ newlines with the result neither
starting nor ending in a newline; raw "\nHello World\n" yields
"Hello World" while " Hello World " (spaces, no newlines) is returned
unchanged. -/
theorem text_trim_newlines_only (e : Engine) (fs : FileSystem) (c : Client)
    (a : Api) (raw : String)
    (hTrim : c.Trim = true)
    (hraw : ∀ st, e.utf8Text st = raw)
    (hok : ∃ out, (Text e fs c a).2 = Except.ok out) :
    (Text e fs c a).2 = Except.ok (trimNL raw) ∧
    (∃ n m, raw.data =
      List.replicate n '\n' ++ (trimNL raw).data ++ List.replicate m '\n') ∧
    (trimNL raw).data.head? ≠ some '\n' ∧
    (trimNL raw).data.getLast? ≠ some '\n' ∧
    trimNL "\nHello World\n" = "Hello World" ∧
    trimNL " Hello World " = " Hello World " := by
  obtain ⟨out, hout⟩ := hok
  rw [Text_snd] at hout ⊢
  by_cases h0 : e.initCode (charLangs c) (charConfig fs c) ≠ 0
  · rw [if_pos h0] at hout
    exact absurd hout (by simp)
  · rw [if_neg h0] at hout ⊢
    cases h1 : firstBindErr e c.Variables with
    | some err =>
      rw [h1] at hout
      exact absurd hout (by simp)
    | none =>
      refine ⟨?_, (trimNL_spec raw).1, (trimNL_spec raw).2.1,
        (trimNL_spec raw).2.2, by decide, by decide⟩
      simp only [hraw, hTrim, if_true]

/-- Witness for C6 with the engine returning "\nHello World\n". -/
theorem text_trim_newlines_only_witness :
    (Text engOk fsEmpty NewClient apiNew).2 =
      Except.ok (trimNL "\nHello World\n") ∧
    trimNL "\nHello World\n" = "Hello World" := by
  have h := text_trim_newlines_only engOk fsEmpty NewClient apiNew
    "\nHello World\n" rfl (fun _ => rfl) ⟨trimNL "\nHello World\n", rfl⟩
  exact ⟨h.1, h.2.2.2.2.1⟩

/-- C7: two `SetVariable` calls with the same key leave the variables
mapping with exactly one binding for that key, holding the second value
(last write wins); lookups of every other key are unaffected, and the
Go-map key-uniqueness invariant is preserved. -/
theorem setVariable_last_write_wins (c : Client) (k v1 v2 : String)
    (hnd : (c.Variables.map Prod.fst).Nodup) :
    ((SetVariable (SetVariable c k v1) k v2).Variables.countP
      (fun p => p.1 == k)) = 1 ∧
    (SetVariable (SetVariable c k v1) k v2).Variables.lookup k = some v2 ∧
    (∀ k', k' ≠ k →
      (SetVariable (SetVariable c k v1) k v2).Variables.lookup k' =
        c.Variables.lookup k') ∧
    ((SetVariable (SetVariable c k v1) k v2).Variables.map Prod.fst).Nodup := by
  have hv : (SetVariable (SetVariable c k v1) k v2).Variables =
      mapInsert (mapInsert c.Variables k v1) k v2 := rfl
  have hnd1 := mapInsert_keys_nodup c.Variables k v1 hnd
  rw [hv]
  refine ⟨mapInsert_countP _ k v2 hnd1,
    mapInsert_lookup_self _ k v2, ?_, mapInsert_keys_nodup _ k v2 hnd1⟩
  intro k' hk'
  rw [mapInsert_lookup_ne _ k v2 k' hk', mapInsert_lookup_ne _ k v1 k' hk']

/-- Witness for C7 on a client with one pre-existing binding. -/
theorem setVariable_last_write_wins_witness :
    ((SetVariable (SetVariable cOne "k" "v1") "k" "v2").Variables.countP
      (fun p => p.1 == "k")) = 1 ∧
    (SetVariable (SetVariable cOne "k" "v1") "k" "v2").Variables.lookup "k" =
      some "v2" ∧
    (SetVariable (SetVariable cOne "k" "v1") "k" "v2").Variables.lookup "a" =
      cOne.Variables.lookup "a" := by
  have h := setVariable_last_write_wins cOne "k" "v1" "v2" (by decide)
  exact ⟨h.1, h.2.1, h.2.2.1 "a" (by decide)⟩

/-- C1 counterexample: after `Close`, operations on the same client
proceed instead of failing: `Close` itself returns nil, a second `Close`
also returns nil, and `Text` invoked on the closed handle runs the full
commit sequence and returns recognized text, not a `UseAfterRelease`
error. -/
theorem close_then_operate_proceeds :
    (Close apiNew).2 = none ∧
    (Close (Close apiNew).1).2 = none ∧
    (Text engOk fsEmpty NewClient (Close apiNew).1).2 =
      Except.ok "Hello World" ∧
    (Text engOk fsEmpty NewClient (Close apiNew).1).2 ≠
      Except.error GErr.useAfterRelease := by
  have h3 : (Text engOk fsEmpty NewClient (Close apiNew).1).2 =
      Except.ok "Hello World" := rfl
  refine ⟨rfl, rfl, h3, ?_⟩
  rw [h3]
  simp

/-- C1 corrected: `Close` unconditionally returns nil and performs no
bookkeeping (the handle state is unchanged), and no operation ever
produces the spec's `UseAfterRelease` error: an operation invoked after
`Close` yields exactly the result it would have yielded before it — the
use-after-free is handed to the engine unchecked rather than caught. -/
theorem close_no_use_after_release_check (e : Engine) (fs : FileSystem)
    (c : Client) (a : Api) :
    (Close a).2 = none ∧
    (Close a).1.st = a.st ∧
    (Text e fs c (Close a).1).2 = (Text e fs c a).2 ∧
    (HTML e fs c (Close a).1).2 = (HTML e fs c a).2 ∧
    (Text e fs c (Close a).1).2 ≠ Except.error GErr.useAfterRelease ∧
    (HTML e fs c (Close a).1).2 ≠ Except.error GErr.useAfterRelease := by
  have hst : (Close a).1.st = a.st := rfl
  have htext : ∀ b : Api, b.st = a.st →
      (Text e fs c b).2 = (Text e fs c a).2 := by
    intro b hb
    rw [Text_snd, Text_snd, hb]
  have hhtml : ∀ b : Api, b.st = a.st →
      (HTML e fs c b).2 = (HTML e fs c a).2 := by
    intro b hb
    rw [HTML_snd, HTML_snd, hb]
  have hnever : ∀ b : Api,
      (Text e fs c b).2 ≠ Except.error GErr.useAfterRelease ∧
      (HTML e fs c b).2 ≠ Except.error GErr.useAfterRelease := by
    intro b
    rw [Text_snd, HTML_snd]
    by_cases h0 : e.initCode (charLangs c) (charConfig fs c) ≠ 0
    · rw [if_pos h0, if_pos h0]
      constructor <;> simp
    · rw [if_neg h0, if_neg h0]
      cases h1 : firstBindErr e c.Variables with
      | some err =>
        obtain ⟨pre, k, v, post, -, -, -, herr⟩ :=
          firstBindErr_some e c.Variables err h1
        constructor <;> simp [herr]
      | none => constructor <;> simp
  exact ⟨rfl, hst, htext _ hst, hhtml _ hst, (hnever _).1, (hnever _).2⟩

/-- Witness for the corrected C1 at a concrete closed handle. -/
theorem close_no_use_after_release_check_witness :
    (Close apiNew).2 = none ∧
    (Text engOk fsEmpty NewClient (Close apiNew).1).2 =
      (Text engOk fsEmpty NewClient apiNew).2 :=
  ⟨(close_no_use_after_release_check engOk fsEmpty NewClient apiNew).1,
    (close_no_use_after_release_check engOk fsEmpty NewClient apiNew).2.2.1⟩

/-- C2 counterexample: a path stored by a successful `SetConfigFile`
while "cfg" was a regular file is still forwarded by `charConfig` (and
hence by `init`) after the file system changed so that "cfg" is a
directory: the path consumed at initialize time is not an existing
non-directory file. -/
theorem config_dir_forwarded_counterexample :
    (SetConfigFile fsCfgFile NewClient "cfg").2 = none ∧
    fsCfgDir "cfg" = some ⟨true⟩ ∧
    charConfig fsCfgDir (SetConfigFile fsCfgFile NewClient "cfg").1 =
      some "cfg" ∧
    (init engOk fsCfgDir (SetConfigFile fsCfgFile NewClient "cfg").1
      apiNew).1.st.config = some "cfg" := by
  refine ⟨?_, ?_, ?_, ?_⟩ <;> rfl

/-- C2 corrected: at consume time `charConfig` re-checks existence only:
a forwarded path is the stored path and `os.Stat` succeeds on it at that
moment, but it is not re-checked for being a directory.  The claimed full
invariant (existing and non-directory) does hold whenever the file system
is unchanged since a successful `SetConfigFile`. -/
theorem charConfig_forwards_existing (fs : FileSystem) (c : Client) :
    (∀ pathC, charConfig fs c = some pathC →
      pathC = c.ConfigFilePath ∧ ∃ info, fs pathC = some info) ∧
    (∀ fpath c1, SetConfigFile fs c fpath = (c1, none) →
      charConfig fs c1 = some fpath ∧
      ∃ info, fs fpath = some info ∧ info.isDir = false) := by
  constructor
  · intro pathC h
    unfold charConfig osStat at h
    cases hf : fs c.ConfigFilePath with
    | none =>
      rw [hf] at h
      simp at h
    | some info =>
      rw [hf] at h
      simp only [Option.some.injEq] at h
      subst h
      exact ⟨rfl, info, hf⟩
  · intro fpath c1 h
    unfold SetConfigFile osStat at h
    cases hf : fs fpath with
    | none =>
      rw [hf] at h
      simp at h
    | some info =>
      rw [hf] at h
      dsimp only at h
      by_cases hd : info.isDir = true
      · rw [if_pos hd] at h
        simp at h
      · have hd' : info.isDir = false := by simpa using hd
        rw [if_neg hd] at h
        simp only [Prod.mk.injEq] at h
        obtain ⟨hc1, -⟩ := h
        subst hc1
        refine ⟨?_, info, rfl, hd'⟩
        simp [charConfig, osStat, hf]

/-- Witness for the corrected C2: with the file system unchanged after a
successful `SetConfigFile`, the forwarded path is an existing
non-directory file. -/
theorem charConfig_forwards_existing_witness :
    charConfig fsCfgFile cCfg = some "cfg" ∧
    (∃ info, fsCfgFile "cfg" = some info ∧ info.isDir = false) := by
  have h := (charConfig_forwards_existing fsCfgFile NewClient).2 "cfg" cCfg
    (by rfl)
  exact ⟨h.1, h.2⟩

/-- C8: `Text` and `HTML` run `init` first and `prepare` second; if
either phase fails they return that first error with no further cgo
activity (in particular the extraction query is never emitted on an error
path), and a `prepare` failure is the `variableBindError` of the first
binding the engine rejected, identifying its key/value pair. -/
theorem extract_error_propagation (e : Engine) (fs : FileSystem)
    (c : Client) (a : Api) :
    (∀ err, (init e fs c a).2 = some err →
      Text e fs c a = ((init e fs c a).1, Except.error err) ∧
      HTML e fs c a = ((init e fs c a).1, Except.error err)) ∧
    (∀ err, (init e fs c a).2 = none →
      (prepare e c (init e fs c a).1).2 = some err →
      Text e fs c a = ((prepare e c (init e fs c a).1).1, Except.error err) ∧
      HTML e fs c a = ((prepare e c (init e fs c a).1).1, Except.error err)) ∧
    (∀ a1 err, (prepare e c a1).2 = some err →
      ∃ pre k v post, c.Variables = pre ++ (k, v) :: post ∧
        (∀ p ∈ pre, e.setVarOk p.1 p.2 = true) ∧
        e.setVarOk k v = false ∧ err = GErr.variableBindError k v) ∧
    (Ev.utf8TextEv ∉ a.tr →
      ((init e fs c a).2 ≠ none ∨ (prepare e c (init e fs c a).1).2 ≠ none) →
      Ev.utf8TextEv ∉ (Text e fs c a).1.tr) ∧
    (Ev.hocrTextEv ∉ a.tr →
      ((init e fs c a).2 ≠ none ∨ (prepare e c (init e fs c a).1).2 ≠ none) →
      Ev.hocrTextEv ∉ (HTML e fs c a).1.tr) := by
  refine ⟨?_, ?_, ?_, ?_, ?_⟩
  · intro err h
    exact ⟨Text_match_init e fs c a err h, HTML_match_init e fs c a err h⟩
  · intro err h0 h
    exact ⟨Text_match_prep e fs c a err h0 h,
      HTML_match_prep e fs c a err h0 h⟩
  · intro a1 err h
    rw [prepare_snd] at h
    exact firstBindErr_some e c.Variables err h
  · intro hnot hcase
    cases hi : (init e fs c a).2 with
    | some err =>
      rw [Text_match_init e fs c a err hi, init_fst]
      intro hmem
      dsimp only at hmem
      rcases List.mem_append.mp hmem with h1 | h1
      · exact hnot h1
      · simp at h1
    | none =>
      rcases hcase with hinit | hprep
      · exact absurd hi hinit
      · cases hp : (prepare e c (init e fs c a).1).2 with
        | none => exact absurd hp hprep
        | some err =>
          have hfb : firstBindErr e c.Variables = some err := by
            rw [← prepare_snd e c (init e fs c a).1]
            exact hp
          rw [Text_match_prep e fs c a err hi hp,
            prepare_fst_tr_err e c _ err hfb, init_fst]
          intro hmem
          dsimp only at hmem
          rcases List.mem_append.mp hmem with h1 | h1
          · rcases List.mem_append.mp h1 with h2 | h2
            · exact hnot h2
            · simp at h2
          · rcases List.mem_cons.mp h1 with h2 | h2
            · simp at h2
            · obtain ⟨k, v, hkv⟩ := varEvsUntil_mem e c.Variables _ h2
              simp at hkv
  · intro hnot hcase
    cases hi : (init e fs c a).2 with
    | some err =>
      rw [HTML_match_init e fs c a err hi, init_fst]
      intro hmem
      dsimp only at hmem
      rcases List.mem_append.mp hmem with h1 | h1
      · exact hnot h1
      · simp at h1
    | none =>
      rcases hcase with hinit | hprep
      · exact absurd hi hinit
      · cases hp : (prepare e c (init e fs c a).1).2 with
        | none => exact absurd hp hprep
        | some err =>
          have hfb : firstBindErr e c.Variables = some err := by
            rw [← prepare_snd e c (init e fs c a).1]
            exact hp
          rw [HTML_match_prep e fs c a err hi hp,
            prepare_fst_tr_err e c _ err hfb, init_fst]
          intro hmem
          dsimp only at hmem
          rcases List.mem_append.mp hmem with h1 | h1
          · rcases List.mem_append.mp h1 with h2 | h2
            · exact hnot h2
            · simp at h2
          · rcases List.mem_cons.mp h1 with h2 | h2
            · simp at h2
            · obtain ⟨k, v, hkv⟩ := varEvsUntil_mem e c.Variables _ h2
              simp at hkv

/-- Witness for C8: an engine whose `Init` fails with code 1, and an
engine rejecting the binding ("bad", "2") after accepting ("ok", "1"). -/
theorem extract_error_propagation_witness :
    Text engInitFail fsEmpty NewClient apiNew =
      ((init engInitFail fsEmpty NewClient apiNew).1,
        Except.error (GErr.initError 1)) ∧
    Text engBad fsEmpty cBad apiNew =
      ((prepare engBad cBad (init engBad fsEmpty cBad apiNew).1).1,
        Except.error (GErr.variableBindError "bad" "2")) ∧
    Ev.utf8TextEv ∉ (Text engInitFail fsEmpty NewClient apiNew).1.tr := by
  have h1 := (extract_error_propagation engInitFail fsEmpty NewClient
    apiNew).1 (GErr.initError 1) (by rfl)
  have h2 := (extract_error_propagation engBad fsEmpty cBad apiNew).2.1
    (GErr.variableBindError "bad" "2") (by rfl) (by rfl)
  have h3 := (extract_error_propagation engInitFail fsEmpty NewClient
    apiNew).2.2.2.1 (by simp [apiNew]) (Or.inl (by simp [init_snd, engInitFail]))
  exact ⟨h1.1, h2.1, h3⟩

/-- C9: calling `Text` twice on the same configured client with no
mutation in between returns equal results, and the second call re-emits
the entire `init`-then-`prepare` commit sequence followed by the
extraction query (no caching of the first initialization). -/
theorem text_repeat_deterministic (e : Engine) (fs : FileSystem)
    (c : Client) (a : Api) :
    (Text e fs c (Text e fs c a).1).2 = (Text e fs c a).2 ∧
    (∀ out, (Text e fs c a).2 = Except.ok out →
      (Text e fs c (Text e fs c a).1).1.tr =
        (Text e fs c a).1.tr ++ commitEvs fs c ++ [Ev.utf8TextEv]) := by
  constructor
  · rw [Text_snd e fs c (Text e fs c a).1, Text_snd e fs c a]
    by_cases h0 : e.initCode (charLangs c) (charConfig fs c) ≠ 0
    · rw [if_pos h0, if_pos h0]
    · rw [if_neg h0, if_neg h0]
      cases h1 : firstBindErr e c.Variables with
      | some err => rfl
      | none =>
        have hst : (Text e fs c a).1.st = commitSt fs c a.st := by
          rw [Text_fst_ok e fs c a (not_ne_iff.mp h0) h1]
        rw [hst, commitSt_idem]
  · intro out hout
    have hcond : e.initCode (charLangs c) (charConfig fs c) = 0 ∧
        firstBindErr e c.Variables = none := by
      rw [Text_snd] at hout
      by_cases h0 : e.initCode (charLangs c) (charConfig fs c) ≠ 0
      · rw [if_pos h0] at hout
        exact absurd hout (by simp)
      · cases h1 : firstBindErr e c.Variables with
        | some err =>
          rw [if_neg h0, h1] at hout
          simp at hout
        | none => exact ⟨not_ne_iff.mp h0, rfl⟩
    obtain ⟨h0, h1⟩ := hcond
    rw [Text_fst_ok e fs c (Text e fs c a).1 h0 h1]

/-- Witness for C9 on a concrete successful extraction. -/
theorem text_repeat_deterministic_witness :
    (Text engOk fsEmpty NewClient (Text engOk fsEmpty NewClient apiNew).1).2 =
      (Text engOk fsEmpty NewClient apiNew).2 ∧
    (Text engOk fsEmpty NewClient (Text engOk fsEmpty NewClient apiNew).1).1.tr =
      (Text engOk fsEmpty NewClient apiNew).1.tr ++
        commitEvs fsEmpty NewClient ++ [Ev.utf8TextEv] := by
  have h := text_repeat_deterministic engOk fsEmpty NewClient apiNew
  exact ⟨h.1, h.2 "Hello World" (by rfl)⟩

end Gosseract
